import Mathlib

/-!
# CommandIndex::run (src/mash/CommandIndex.cpp)

A shallow embedding of `mash::CommandIndex::run`.  The command reads its
arguments and options, chooses an output name, loads a Mash sketch, writes one
HyperLogLog file per reference, fills a chopper layout configuration, calls the
chopper layout engine and writes the layout file.

The run is embedded as a pure function from the command (arguments, options) and
the behaviour of the external collaborators (Mash `Sketch`, chopper) to the
sequence of observable events plus the exit status.  The collaborators are not
part of this translation unit, so they are parameters of the embedding.
-/

namespace mash

/-! ## Numbers: `config.tmax = std::sqrt(sketch.getReferenceCount())` (line 120) -/

/-- A finite non-negative `double`, written as the dyadic fraction `m / 2 ^ j`. -/
structure Double where
  m : Nat
  j : Nat
deriving DecidableEq, Repr

/-- Conversion of an unsigned 64-bit count to `double` (53-bit significand, round to
nearest, ties to even).  The result is integer valued and is returned as that integer. -/
def toDouble (n : Nat) : Nat :=
  if n < 2 ^ 53 then n
  else
    let sh := Nat.log2 n - 52
    let q := n / 2 ^ sh
    let r := n % 2 ^ sh
    let half := 2 ^ (sh - 1)
    if r < half ∨ (r = half ∧ q % 2 = 0) then q * 2 ^ sh else (q + 1) * 2 ^ sh

/-- The integer nearest to the square root of `N`.  The root of an integer is never
half way between two integers, so there are no ties: it is `⌊√N⌋` when
`N ≤ ⌊√N⌋² + ⌊√N⌋` and `⌊√N⌋ + 1` otherwise. -/
def nearestRoot (N : Nat) : Nat :=
  let S := Nat.sqrt N
  if N ≤ S * S + S then S else S + 1

/-- The function `std::sqrt` on an integer-valued `double` `x`, correctly rounded (IEEE 754):
with `2 ^ k ≤ √x < 2 ^ (k + 1)` the result is the multiple of `2 ^ (k - 52)` nearest
to `√x`.  (`k ≤ 32` for every `x ≤ 2 ^ 64`, so `52 - k` does not underflow.) -/
def std_sqrt (x : Nat) : Double :=
  if x = 0 then ⟨0, 0⟩
  else
    let k := Nat.log2 (Nat.sqrt x)
    let j := 52 - k
    ⟨nearestRoot (x * 4 ^ j), j⟩

/-- Assignment of a `double` to the unsigned integer field `tmax`: truncation toward zero.
(The root of a 64-bit count is at most `2 ^ 32`, so the value always fits the field.) -/
def toSizeT (d : Double) : Nat := d.m / 2 ^ d.j

/-- The value stored by line 120 for a sketch with `n` references. -/
def configured_tmax (n : Nat) : Nat := toSizeT (std_sqrt (toDouble n))

/-! ## Data -/

/-- Sorted min-hashes of one reference (`HashList`). -/
abbrev HashList := List Nat

/-- One reference of a sketch (`Sketch::Reference`), as far as `run` reads it. -/
structure Reference where
  hashesSorted : HashList
deriving DecidableEq, Repr

/-- A loaded Mash sketch, as far as `run` reads it. -/
structure Sketch where
  references : List Reference
deriving DecidableEq, Repr

/-- Number of references, `Sketch::getReferenceCount`. -/
def Sketch.getReferenceCount (s : Sketch) : Nat := s.references.length

/-- One entry of `Command::options`: whether the option was given, and its argument. -/
structure CommandOption where
  active : Bool
  argument : String
deriving DecidableEq, Repr

/-- The members of `Command` read by `run`: positional arguments and options by name. -/
structure Command where
  arguments : List String
  options : String → CommandOption

/-- The fields of `chopper::layout::configuration` that `run` assigns (lines 117-131).
Field `prefixName` is the member called `prefix` in the source.  The literals `0.05`,
`1.2` and `0.5` are kept as the decimal fractions written in the source. -/
structure configuration where
  output_filename : String
  prefixName : String
  sketch_directory : String
  tmax : Nat
  num_hash_functions : Nat
  false_positive_rate : ℚ
  alpha : ℚ
  max_rearrangement_ratio : ℚ
  threads : Nat
  estimate_union : Bool
  rearrange_user_bins : Bool
  determine_best_tmax : Bool
  force_all_binnings : Bool
  output_verbose_statistics : Bool
  debug : Bool
deriving DecidableEq

/-- The members of `chopper::layout::data_store` that `run` fills before the layout. -/
structure data_store where
  filenames : List String
  kmer_sizes : List Nat
  fp_correction : List ℚ
  false_positive_rate : ℚ
deriving DecidableEq

/-- What `hierarchical_binning::execute` hands back: its return value and the text it
has put into the two string streams that `run` attached to the data store. -/
structure LayoutResult where
  max_hibf_id : Nat
  header_buffer : String
  output_buffer : String
deriving DecidableEq, Repr

/-- The external collaborators of `run`.  A result `none` stands for a call that does
not return to `run` (an exception, or `exit` inside the callee). -/
structure Collaborators where
  /-- The call `Sketch::initFromFiles(files, parameters)`: the references it loads. -/
  initFromFiles : List String → Option Sketch
  /-- The call `std::filesystem::create_directory(path)` of line 92, the overload that
  throws on failure (`none`, for instance when the parent directory is missing); the
  value it returns, whether a directory was created, is not read by `run`. -/
  create_directory : String → Option Bool
  /-- The bytes `hyperloglog::dump` writes after the hashes were added to a fresh
  12-bit sketch. -/
  hll_dump : HashList → String
  /-- The call `data_store::compute_fp_correction`: the correction table it stores. -/
  compute_fp_correction : ℚ → Nat → Nat → Option (List ℚ)
  /-- The call `hierarchical_binning{data, config}.execute()`. -/
  execute : data_store → configuration → Option LayoutResult
  /-- The text `write_layout_header_to(config, max_hibf_id, header, stream)` puts on
  the stream. -/
  write_layout_header_to : configuration → Nat → String → String

/-- Observable steps of a run, in program order. -/
inductive Event where
  | print
  | initFromFiles (files : List String)
  | create_directory (path : String)
  | ofstream (path : String)
  | put (path : String) (text : String)
  | compute_fp_correction (fpr : ℚ) (num_hash_functions : Nat) (tmax : Nat)
  | execute (data : data_store) (config : configuration)
  | print_header
  | print_summary
  | cerr (text : String)
deriving DecidableEq

/-- Result of a run: the events in order (a call is listed whether or not it returns)
and the value returned (`none` when a collaborator did not return). -/
structure Outcome where
  trace : List Event
  returned : Option Int
deriving DecidableEq

/-! ## The command -/

namespace CommandIndex

/-- Lines 60-76: the output name stem. -/
def chosenPrefix (cmd : Command) : String :=
  if (cmd.options "prefix").argument.length > 0 then
    (cmd.options "prefix").argument
  else
    if cmd.arguments.getD 0 "" = "-" then
      "stdin"
    else
      cmd.arguments.getD 0 ""

/-- Lines 102-103: path of the HyperLogLog file of reference `i`. -/
def hllPath (hll_sketches_dir : String) (i : Nat) : String :=
  hll_sketches_dir ++ "/" ++ toString i ++ ".hll"

/-- State carried through the loop of lines 94-110. -/
structure LoopState where
  trace : List Event
  chopper_data : data_store

/-- Lines 94-110, from index `i` on, over the references not yet visited: each reference
gets its HyperLogLog file written and one entry in `filenames` and `kmer_sizes`. -/
def sketchLoop (env : Collaborators) (hll_sketches_dir : String) :
    Nat → List Reference → LoopState → LoopState
  | _, [], st => st
  | i, r :: rest, st =>
    sketchLoop env hll_sketches_dir (i + 1) rest
      { trace := st.trace ++
          [Event.ofstream (hllPath hll_sketches_dir i),
           Event.put (hllPath hll_sketches_dir i) (env.hll_dump r.hashesSorted)]
        chopper_data :=
          { st.chopper_data with
            filenames := st.chopper_data.filenames ++ [toString i]
            kmer_sizes := st.chopper_data.kmer_sizes ++ [r.hashesSorted.length] } }

/-- Lines 115-131: the configuration for stem `pfx` and `n` references.  Lines 123-131
spell the object `donfig`; no object of that name exists and `config` is the only
configuration in scope, so they are read as assignments to `config`. -/
def layoutConfiguration (pfx : String) (n : Nat) : configuration :=
  { output_filename := pfx ++ ".layout"
    prefixName := pfx
    sketch_directory := pfx ++ "_sketches"
    tmax := configured_tmax n
    num_hash_functions := 4
    false_positive_rate := 0.05
    alpha := 1.2
    max_rearrangement_ratio := 0.5
    threads := 8
    estimate_union := true
    rearrange_user_bins := true
    determine_best_tmax := false
    force_all_binnings := false
    output_verbose_statistics := false
    debug := false }

/-- Lines 150-189, after `execute` returned `res`: optional statistics, the layout file,
the message about the index file, and `return 0`. -/
def finish (env : Collaborators) (pfx : String) (config : configuration)
    (res : LayoutResult) (trace : List Event) : Outcome :=
  let statistics :=
    if config.output_verbose_statistics = true then
      [Event.print_header, Event.print_summary]
    else
      []
  let index_file := pfx ++ ".indec"
  { trace := trace ++ statistics ++
      [Event.ofstream config.output_filename,
       Event.put config.output_filename
         (env.write_layout_header_to config res.max_hibf_id res.header_buffer),
       Event.put config.output_filename res.output_buffer,
       Event.cerr ("Writing to " ++ index_file ++ "...\n")]
    returned := some 0 }

/-- Lines 94-189, once the sketch directory exists.  The statistics object of lines
144-146 only observes the layout and prints nothing unless `output_verbose_statistics`
is set. -/
def layoutBody (env : Collaborators) (pfx : String) (sketch : Sketch)
    (trace : List Event) : Outcome :=
  let hll_sketches_dir := pfx ++ "_sketches"
  let st := sketchLoop env hll_sketches_dir 0 sketch.references
    { trace := trace
      chopper_data :=
        { filenames := [], kmer_sizes := [], fp_correction := [], false_positive_rate := 0 } }
  let config := layoutConfiguration pfx sketch.getReferenceCount
  let trace1 := st.trace ++
    [Event.compute_fp_correction config.false_positive_rate config.num_hash_functions
      config.tmax]
  match env.compute_fp_correction config.false_positive_rate config.num_hash_functions
      config.tmax with
  | none => { trace := trace1, returned := none }
  | some fp_correction =>
    let chopper_data : data_store :=
      { st.chopper_data with
        fp_correction := fp_correction
        false_positive_rate := config.false_positive_rate }
    let trace2 := trace1 ++ [Event.execute chopper_data config]
    match env.execute chopper_data config with
    | none => { trace := trace2, returned := none }
    | some res => finish env pfx config res trace2

/-- Lines 87-189, once the sketch is loaded: the sketch directory is created (line 92),
and when that call throws the run ends there. -/
def layoutStage (env : Collaborators) (pfx : String) (sketch : Sketch)
    (trace : List Event) : Outcome :=
  let hll_sketches_dir := pfx ++ "_sketches"
  let trace0 := trace ++ [Event.create_directory hll_sketches_dir]
  match env.create_directory hll_sketches_dir with
  | none => { trace := trace0, returned := none }
  | some _ => layoutBody env pfx sketch trace0

/-- The method `CommandIndex::run` (lines 40-189).  The flag read at line 49 is not used
again; the loop of lines 51-58 is guarded by `false &&` and does nothing. -/
def run (env : Collaborators) (cmd : Command) : Outcome :=
  if cmd.arguments.length = 0 ∨ (cmd.options "help").active = true then
    { trace := [Event.print], returned := some 0 }
  else
    let _list : Bool := (cmd.options "list").active
    let pfx := chosenPrefix cmd
    let refArgVector := [cmd.arguments.getD 0 ""]
    match env.initFromFiles refArgVector with
    | none => { trace := [Event.initFromFiles refArgVector], returned := none }
    | some sketch => layoutStage env pfx sketch [Event.initFromFiles refArgVector]

end CommandIndex

/-! ## Reading a trace -/

/-- Paths of the files a trace opens for writing, in order. -/
def filesWritten (trace : List Event) : List String :=
  trace.filterMap fun e =>
    match e with
    | Event.ofstream p => some p
    | _ => none

/-- Effect of one event on the content of the file `path` (`none`: not written so far).
Opening truncates, `put` appends. -/
def fileStep (path : String) (content : Option String) : Event → Option String
  | Event.ofstream p => if p = path then some "" else content
  | Event.put p text => if p = path then content.map (· ++ text) else content
  | _ => content

/-- Content of the file `path` after the trace. -/
def fileContent (trace : List Event) (path : String) : Option String :=
  trace.foldl (fileStep path) none

/-- File lists handed to `Sketch::initFromFiles` in a trace, in order. -/
def filesIngested (trace : List Event) : List (List String) :=
  trace.filterMap fun e =>
    match e with
    | Event.initFromFiles files => some files
    | _ => none

/-- Texts written to the standard error stream in a trace, in order. -/
def messages (trace : List Event) : List String :=
  trace.filterMap fun e =>
    match e with
    | Event.cerr text => some text
    | _ => none

/-- Data stores handed to `hierarchical_binning::execute` in a trace, in order. -/
def layoutInputs (trace : List Event) : List data_store :=
  trace.filterMap fun e =>
    match e with
    | Event.execute data _ => some data
    | _ => none

/-- Whether an event writes to a file: opening it or appending to it. -/
def Event.isFileWrite : Event → Bool
  | Event.ofstream _ => true
  | Event.put _ _ => true
  | _ => false

/-- Whether an event is a call of `compute_fp_correction`. -/
def Event.isFpCorrection : Event → Bool
  | Event.compute_fp_correction _ _ _ => true
  | _ => false

/-- Whether an event is a call of `hierarchical_binning::execute`. -/
def Event.isExecute : Event → Bool
  | Event.execute _ _ => true
  | _ => false

/-! ## Sample inputs -/

/-- Options as they are when none is given on the command line. -/
def noOptions : String → CommandOption := fun _ => { active := false, argument := "" }

/-- Options with only the list flag `-l` given. -/
def listOption : String → CommandOption := fun name =>
  if name = "list" then { active := true, argument := "" } else { active := false, argument := "" }

/-- Collaborators that always return: the sketch loaded has the references `refs` whatever
the files, and the layout engine hands back fixed texts. -/
def sampleEnv (refs : List Reference) : Collaborators :=
  { initFromFiles := fun _ => some { references := refs }
    create_directory := fun _ => some true
    hll_dump := fun _ => "hll"
    compute_fp_correction := fun _ _ _ => some []
    execute := fun _ _ => some { max_hibf_id := 0, header_buffer := "H", output_buffer := "R" }
    write_layout_header_to := fun _ _ header => "@" ++ header }

/-- Collaborators that always return and load one reference per file handed to
`initFromFiles` (its single hash is the length of the file name). -/
def perFileEnv : Collaborators :=
  { initFromFiles := fun files =>
      some { references := files.map fun name => { hashesSorted := [name.length] } }
    create_directory := fun _ => some true
    hll_dump := fun _ => "hll"
    compute_fp_correction := fun _ _ _ => some []
    execute := fun _ _ => some { max_hibf_id := 0, header_buffer := "H", output_buffer := "R" }
    write_layout_header_to := fun _ _ header => "@" ++ header }

/-- One input file, no option. -/
def oneInput : Command := { arguments := ["genome.fa"], options := noOptions }

/-- Two input files, no option. -/
def twoInputs : Command := { arguments := ["a.fa", "b.fa"], options := noOptions }

/-- Two files of file names, with the list flag. -/
def twoLists : Command := { arguments := ["a.txt", "b.txt"], options := listOption }

/-- Standard input as the only input, no option. -/
def stdinInput : Command := { arguments := ["-"], options := noOptions }

/-- A single reference with three hashes. -/
def oneReference : List Reference := [{ hashesSorted := [1, 2, 3] }]

/-- The data store `run` builds for `oneReference` and the collaborators `sampleEnv`. -/
def oneReferenceData : data_store :=
  { filenames := ["0"], kmer_sizes := [3], fp_correction := [], false_positive_rate := 0.05 }

/-- The data store `run` builds for a sketch without references and `sampleEnv`. -/
def noReferenceData : data_store :=
  { filenames := [], kmer_sizes := [], fp_correction := [], false_positive_rate := 0.05 }

/-! ## The square root of line 120 -/

section Numbers

/-- Scaling the radicand by a square scales the bounds of the integer root. -/
theorem sqrt_scaled_bounds (x P : Nat) (hP : 0 < P) :
    Nat.sqrt x * P ≤ Nat.sqrt (x * (P * P)) ∧
      Nat.sqrt (x * (P * P)) < (Nat.sqrt x + 1) * P := by
  have h1 := Nat.sqrt_le x
  have h2 := Nat.lt_succ_sqrt x
  constructor
  · rw [Nat.le_sqrt]
    calc Nat.sqrt x * P * (Nat.sqrt x * P) = Nat.sqrt x * Nat.sqrt x * (P * P) := by ring
      _ ≤ x * (P * P) := Nat.mul_le_mul_right _ h1
  · rw [Nat.sqrt_lt]
    calc x * (P * P) < (Nat.sqrt x + 1) * (Nat.sqrt x + 1) * (P * P) :=
          Nat.mul_lt_mul_of_pos_right h2 (Nat.mul_pos hP hP)
      _ = (Nat.sqrt x + 1) * P * ((Nat.sqrt x + 1) * P) := by ring

/-- The nearest root is never below the integer root. -/
theorem sqrt_le_nearestRoot (N : Nat) : Nat.sqrt N ≤ nearestRoot N := by
  unfold nearestRoot
  simp only
  split_ifs <;> omega

/-- Rounding the scaled root to nearest stays below the next integer as long as the scale
exceeds the root: the rounded value still truncates to the integer root. -/
theorem nearestRoot_bounds (x P : Nat) (hP : Nat.sqrt x + 1 ≤ P) :
    Nat.sqrt x * P ≤ nearestRoot (x * (P * P)) ∧
      nearestRoot (x * (P * P)) < (Nat.sqrt x + 1) * P := by
  have hP0 : 0 < P := by omega
  obtain ⟨hlo, hhi⟩ := sqrt_scaled_bounds x P hP0
  have h2 : x + 1 ≤ (Nat.sqrt x + 1) * (Nat.sqrt x + 1) := Nat.lt_succ_sqrt x
  unfold nearestRoot
  simp only
  split_ifs with hr
  · exact ⟨hlo, hhi⟩
  · refine ⟨Nat.le_succ_of_le hlo, ?_⟩
    by_contra hcon
    generalize Nat.sqrt (x * (P * P)) = S at *
    have hT : S + 1 = (Nat.sqrt x + 1) * P := by omega
    have hA : x * (P * P) + P * P ≤ (S + 1) * (S + 1) := by
      rw [hT]
      calc x * (P * P) + P * P = (x + 1) * (P * P) := by ring
        _ ≤ (Nat.sqrt x + 1) * (Nat.sqrt x + 1) * (P * P) := Nat.mul_le_mul_right _ h2
        _ = (Nat.sqrt x + 1) * P * ((Nat.sqrt x + 1) * P) := by ring
    have hB : P * P ≤ S := by nlinarith
    have hC : (Nat.sqrt x + 1) * P ≤ P * P := Nat.mul_le_mul_right _ hP
    omega

theorem four_pow (j : Nat) : (4 : Nat) ^ j = 2 ^ j * 2 ^ j := by
  rw [← Nat.mul_pow]

/-- Below `2 ^ 52` the correctly rounded `double` root truncates to the integer root. -/
theorem toSizeT_std_sqrt (x : Nat) (hx : x < 2 ^ 52) : toSizeT (std_sqrt x) = Nat.sqrt x := by
  by_cases h0 : x = 0
  · subst h0
    simp [std_sqrt, toSizeT]
  · have hs0 : Nat.sqrt x ≠ 0 := by
      rw [Ne, Nat.sqrt_eq_zero]; exact h0
    have hs : Nat.sqrt x < 2 ^ 26 := by
      rw [Nat.sqrt_lt]
      calc x < 2 ^ 52 := hx
        _ = 2 ^ 26 * 2 ^ 26 := by norm_num
    have hk : Nat.log2 (Nat.sqrt x) < 26 := (Nat.log2_lt hs0).2 hs
    have hP : Nat.sqrt x + 1 ≤ 2 ^ (52 - Nat.log2 (Nat.sqrt x)) := by
      have : 2 ^ 26 ≤ 2 ^ (52 - Nat.log2 (Nat.sqrt x)) :=
        Nat.pow_le_pow_right (by norm_num) (by omega)
      omega
    obtain ⟨hlo, hhi⟩ := nearestRoot_bounds x _ hP
    unfold std_sqrt toSizeT
    rw [if_neg h0]
    simp only
    rw [four_pow]
    exact Nat.div_eq_of_lt_le hlo hhi

theorem toDouble_exact (n : Nat) (h : n < 2 ^ 53) : toDouble n = n := by
  unfold toDouble
  rw [if_pos h]

/-- Conversion to `double` keeps a positive count positive. -/
theorem toDouble_pos (n : Nat) (h : 1 ≤ n) : 1 ≤ toDouble n := by
  unfold toDouble
  by_cases h1 : n < 2 ^ 53
  · rw [if_pos h1]
    exact h
  · rw [if_neg h1]
    have hn : n ≠ 0 := by omega
    have hpos : 0 < 2 ^ (Nat.log2 n - 52) := Nat.pos_pow_of_pos _ (by norm_num)
    have hle : 2 ^ (Nat.log2 n - 52) ≤ n :=
      le_trans (Nat.pow_le_pow_right (by norm_num) (Nat.sub_le _ _)) (Nat.log2_self_le hn)
    have hq : 1 ≤ n / 2 ^ (Nat.log2 n - 52) := (Nat.one_le_div_iff hpos).2 hle
    simp only
    split_ifs
    · exact Nat.mul_pos hq hpos
    · exact Nat.mul_pos (Nat.succ_pos _) hpos

/-- The root of a positive `double` truncates to at least one. -/
theorem toSizeT_std_sqrt_pos (x : Nat) (hx : 1 ≤ x) : 1 ≤ toSizeT (std_sqrt x) := by
  have h0 : x ≠ 0 := by omega
  have hs : 1 ≤ Nat.sqrt x := Nat.sqrt_pos.2 hx
  unfold std_sqrt toSizeT
  rw [if_neg h0]
  simp only
  rw [four_pow]
  have hpos : 0 < 2 ^ (52 - Nat.log2 (Nat.sqrt x)) := Nat.pos_pow_of_pos _ (by norm_num)
  rw [Nat.one_le_div_iff hpos]
  calc 2 ^ (52 - Nat.log2 (Nat.sqrt x)) ≤ Nat.sqrt x * 2 ^ (52 - Nat.log2 (Nat.sqrt x)) :=
        Nat.le_mul_of_pos_left _ hs
    _ ≤ Nat.sqrt (x * (2 ^ (52 - Nat.log2 (Nat.sqrt x)) * 2 ^ (52 - Nat.log2 (Nat.sqrt x)))) :=
        (sqrt_scaled_bounds x _ hpos).1
    _ ≤ _ := sqrt_le_nearestRoot _

theorem configured_tmax_zero : configured_tmax 0 = 0 := by
  simp [configured_tmax, toDouble, std_sqrt, toSizeT]

theorem configured_tmax_pos (n : Nat) (h : 1 ≤ n) : 1 ≤ configured_tmax n :=
  toSizeT_std_sqrt_pos _ (toDouble_pos n h)

theorem configured_tmax_pos_iff (n : Nat) : 1 ≤ configured_tmax n ↔ 1 ≤ n := by
  constructor
  · intro h
    by_contra hn
    have : n = 0 := by omega
    subst this
    rw [configured_tmax_zero] at h
    omega
  · exact configured_tmax_pos n

theorem configured_tmax_eq_sqrt (n : Nat) (h : n < 2 ^ 52) :
    configured_tmax n = Nat.sqrt n := by
  unfold configured_tmax
  rw [toDouble_exact n (by omega), toSizeT_std_sqrt n h]

end Numbers


/-! ## Shape of a run -/

section Shape

open CommandIndex

theorem fileWrite_not_fpCorrection (e : Event) (h : e.isFileWrite = true) :
    e.isFpCorrection = false := by
  cases e <;> simp_all [Event.isFileWrite, Event.isFpCorrection]

theorem fileWrite_not_execute (e : Event) (h : e.isFileWrite = true) :
    e.isExecute = false := by
  cases e <;> simp_all [Event.isFileWrite, Event.isExecute]

/-- The loop of lines 94-110 only appends file writes to the trace, and nothing for a
sketch without references. -/
theorem sketchLoop_trace (env : Collaborators) (dir : String) :
    ∀ (refs : List Reference) (i : Nat) (st : LoopState),
      ∃ evs, (sketchLoop env dir i refs st).trace = st.trace ++ evs ∧
        (∀ e ∈ evs, e.isFileWrite = true) ∧ (refs = [] → evs = []) := by
  intro refs
  induction refs with
  | nil =>
    intro i st
    exact ⟨[], by simp [sketchLoop], by simp, fun _ => rfl⟩
  | cons r rest ih =>
    intro i st
    obtain ⟨evs, h1, h2, _⟩ := ih (i + 1)
      { trace := st.trace ++
          [Event.ofstream (hllPath dir i), Event.put (hllPath dir i) (env.hll_dump r.hashesSorted)]
        chopper_data :=
          { st.chopper_data with
            filenames := st.chopper_data.filenames ++ [toString i]
            kmer_sizes := st.chopper_data.kmer_sizes ++ [r.hashesSorted.length] } }
    refine ⟨Event.ofstream (hllPath dir i) ::
      Event.put (hllPath dir i) (env.hll_dump r.hashesSorted) :: evs, ?_, ?_, ?_⟩
    · rw [sketchLoop, h1]
      simp
    · intro e he
      simp only [List.mem_cons] at he
      rcases he with rfl | rfl | he
      · rfl
      · rfl
      · exact h2 e he
    · intro h
      cases h

/-- The events a run appends once `execute` has returned `res` (lines 156-184). -/
theorem finish_eq (env : Collaborators) (pfx : String) (n : Nat) (res : LayoutResult)
    (tr : List Event) :
    finish env pfx (layoutConfiguration pfx n) res tr =
      { trace := tr ++
          [Event.ofstream (pfx ++ ".layout"),
           Event.put (pfx ++ ".layout")
             (env.write_layout_header_to (layoutConfiguration pfx n) res.max_hibf_id
               res.header_buffer),
           Event.put (pfx ++ ".layout") res.output_buffer,
           Event.cerr ("Writing to " ++ (pfx ++ ".indec") ++ "...\n")]
        returned := some 0 } := by
  simp [finish, layoutConfiguration]

/-- The three ways the part of `run` after the sketch directory is created can go. -/
theorem layoutBody_spec (env : Collaborators) (pfx : String) (sketch : Sketch)
    (tr : List Event) :
    ∃ (evs : List Event) (ds0 : data_store),
      (∀ e ∈ evs, e.isFileWrite = true) ∧ (sketch.references = [] → evs = []) ∧
      ∀ c, c = layoutConfiguration pfx sketch.getReferenceCount →
      ∀ t1, t1 = tr ++ evs ++
          [Event.compute_fp_correction c.false_positive_rate c.num_hash_functions c.tmax] →
        (env.compute_fp_correction c.false_positive_rate c.num_hash_functions c.tmax = none →
          layoutBody env pfx sketch tr = { trace := t1, returned := none }) ∧
        (∀ fp, env.compute_fp_correction c.false_positive_rate c.num_hash_functions c.tmax
            = some fp →
          ∀ ds : data_store, ds = { ds0 with fp_correction := fp,
                                             false_positive_rate := c.false_positive_rate } →
            (env.execute ds c = none →
              layoutBody env pfx sketch tr =
                { trace := t1 ++ [Event.execute ds c], returned := none }) ∧
            (∀ res, env.execute ds c = some res →
              layoutBody env pfx sketch tr =
                { trace := t1 ++ [Event.execute ds c] ++
                    [Event.ofstream c.output_filename,
                     Event.put c.output_filename
                       (env.write_layout_header_to c res.max_hibf_id res.header_buffer),
                     Event.put c.output_filename res.output_buffer,
                     Event.cerr ("Writing to " ++ (pfx ++ ".indec") ++ "...\n")]
                  returned := some 0 })) := by
  obtain ⟨evs, h1, h2, h3⟩ := sketchLoop_trace env (pfx ++ "_sketches") sketch.references 0
    { trace := tr
      chopper_data :=
        { filenames := [], kmer_sizes := [], fp_correction := [], false_positive_rate := 0 } }
  refine ⟨evs, (sketchLoop env (pfx ++ "_sketches") 0 sketch.references
    { trace := tr
      chopper_data :=
        { filenames := [], kmer_sizes := [], fp_correction := [], false_positive_rate := 0 }
    }).chopper_data, h2, h3, ?_⟩
  rintro c rfl t1 rfl
  refine ⟨?_, ?_⟩
  · intro hnone
    simp only [layoutBody, hnone, h1]
  · rintro fp hfp ds rfl
    refine ⟨?_, ?_⟩
    · intro hnone
      simp only [layoutBody, hfp, hnone, h1]
    · intro res hres
      simp only [layoutBody, hfp, hres, h1, finish_eq]
      simp [layoutConfiguration]

/-- The part of `run` after the sketch is loaded: it ends at line 92 when the sketch
directory cannot be created, and goes on otherwise. -/
theorem layoutStage_spec (env : Collaborators) (pfx : String) (sketch : Sketch)
    (tr : List Event) :
    (env.create_directory (pfx ++ "_sketches") = none →
        layoutStage env pfx sketch tr =
          { trace := tr ++ [Event.create_directory (pfx ++ "_sketches")], returned := none }) ∧
      ∀ created, env.create_directory (pfx ++ "_sketches") = some created →
        layoutStage env pfx sketch tr =
          layoutBody env pfx sketch (tr ++ [Event.create_directory (pfx ++ "_sketches")]) := by
  refine ⟨?_, ?_⟩
  · intro h
    simp only [layoutStage, h]
  · intro created h
    simp only [layoutStage, h]

/-- The ways `run` can go before the sketch is loaded. -/
theorem run_spec (env : Collaborators) (cmd : Command) :
    ((cmd.arguments.length = 0 ∨ (cmd.options "help").active = true) ∧
        run env cmd = { trace := [Event.print], returned := some 0 }) ∨
      (¬ (cmd.arguments.length = 0 ∨ (cmd.options "help").active = true) ∧
        env.initFromFiles [cmd.arguments.getD 0 ""] = none ∧
        run env cmd =
          { trace := [Event.initFromFiles [cmd.arguments.getD 0 ""]], returned := none }) ∨
      (¬ (cmd.arguments.length = 0 ∨ (cmd.options "help").active = true) ∧
        ∃ sketch, env.initFromFiles [cmd.arguments.getD 0 ""] = some sketch ∧
          run env cmd = layoutStage env (chosenPrefix cmd) sketch
            [Event.initFromFiles [cmd.arguments.getD 0 ""]]) := by
  by_cases hg : cmd.arguments.length = 0 ∨ (cmd.options "help").active = true
  · left
    exact ⟨hg, by simp only [run, if_pos hg]⟩
  · right
    cases hinit : env.initFromFiles [cmd.arguments.getD 0 ""] with
    | none =>
      left
      exact ⟨hg, rfl, by simp only [run, if_neg hg, hinit]⟩
    | some sketch =>
      right
      exact ⟨hg, sketch, rfl, by simp only [run, if_neg hg, hinit]⟩

end Shape


section Reaching

open CommandIndex

theorem execute_not_mem_fileWrites (evs : List Event) (h : ∀ e ∈ evs, e.isFileWrite = true)
    (ds : data_store) (c : configuration) : Event.execute ds c ∉ evs := by
  intro hmem
  have := h _ hmem
  simp [Event.isFileWrite] at this

/-- A run whose trace holds a call of `execute` went past the help screen, loaded a
sketch and got the correction table; its trace is fixed up to the HyperLogLog writes. -/
theorem run_of_execute_mem (env : Collaborators) (cmd : Command) (ds : data_store)
    (c : configuration) (h : Event.execute ds c ∈ (run env cmd).trace) :
    ∃ (sketch : Sketch) (evs : List Event) (fp : List ℚ),
      ¬ (cmd.arguments.length = 0 ∨ (cmd.options "help").active = true) ∧
      env.initFromFiles [cmd.arguments.getD 0 ""] = some sketch ∧
      c = layoutConfiguration (chosenPrefix cmd) sketch.getReferenceCount ∧
      env.compute_fp_correction c.false_positive_rate c.num_hash_functions c.tmax = some fp ∧
      (∀ e ∈ evs, e.isFileWrite = true) ∧ (sketch.references = [] → evs = []) ∧
      ((env.execute ds c = none ∧
          run env cmd =
            { trace := [Event.initFromFiles [cmd.arguments.getD 0 ""]] ++
                [Event.create_directory (chosenPrefix cmd ++ "_sketches")] ++ evs ++
                [Event.compute_fp_correction c.false_positive_rate c.num_hash_functions
                  c.tmax] ++ [Event.execute ds c]
              returned := none }) ∨
        (∃ res, env.execute ds c = some res ∧
          run env cmd =
            { trace := [Event.initFromFiles [cmd.arguments.getD 0 ""]] ++
                [Event.create_directory (chosenPrefix cmd ++ "_sketches")] ++ evs ++
                [Event.compute_fp_correction c.false_positive_rate c.num_hash_functions
                  c.tmax] ++ [Event.execute ds c] ++
                [Event.ofstream c.output_filename,
                 Event.put c.output_filename
                   (env.write_layout_header_to c res.max_hibf_id res.header_buffer),
                 Event.put c.output_filename res.output_buffer,
                 Event.cerr ("Writing to " ++ (chosenPrefix cmd ++ ".indec") ++ "...\n")]
              returned := some 0 })) := by
  rcases run_spec env cmd with ⟨_, hrun⟩ | ⟨_, _, hrun⟩ | ⟨hg, sketch, hinit, hrun⟩
  · rw [hrun] at h
    simp at h
  · rw [hrun] at h
    simp at h
  · obtain ⟨hthrow, hmade⟩ := layoutStage_spec env (chosenPrefix cmd) sketch
      [Event.initFromFiles [cmd.arguments.getD 0 ""]]
    cases hdir : env.create_directory (chosenPrefix cmd ++ "_sketches") with
    | none =>
      rw [hrun, hthrow hdir] at h
      simp at h
    | some created =>
    replace hrun := hrun.trans (hmade created hdir)
    obtain ⟨evs, ds0, hw, hnil, hspec⟩ := layoutBody_spec env (chosenPrefix cmd) sketch
      ([Event.initFromFiles [cmd.arguments.getD 0 ""]] ++
        [Event.create_directory (chosenPrefix cmd ++ "_sketches")])
    obtain ⟨hA, hB⟩ := hspec _ rfl _ rfl
    have hnot := execute_not_mem_fileWrites evs hw ds c
    cases hfp : env.compute_fp_correction
        (layoutConfiguration (chosenPrefix cmd) sketch.getReferenceCount).false_positive_rate
        (layoutConfiguration (chosenPrefix cmd) sketch.getReferenceCount).num_hash_functions
        (layoutConfiguration (chosenPrefix cmd) sketch.getReferenceCount).tmax with
    | none =>
      rw [hrun, hA hfp] at h
      simp [hnot] at h
    | some fp =>
      obtain ⟨hC, hD⟩ := hB fp hfp _ rfl
      cases hex : env.execute
          { ds0 with
            fp_correction := fp
            false_positive_rate :=
              (layoutConfiguration (chosenPrefix cmd)
                sketch.getReferenceCount).false_positive_rate }
          (layoutConfiguration (chosenPrefix cmd) sketch.getReferenceCount) with
      | none =>
        have hrun2 := hrun.trans (hC hex)
        rw [hrun2] at h
        simp [hnot] at h
        obtain ⟨rfl, rfl⟩ := h
        exact ⟨sketch, evs, fp, hg, hinit, rfl, hfp, hw, hnil, Or.inl ⟨hex, hrun2⟩⟩
      | some res =>
        have hrun2 := hrun.trans (hD res hex)
        rw [hrun2] at h
        simp [hnot] at h
        obtain ⟨rfl, rfl⟩ := h
        exact ⟨sketch, evs, fp, hg, hinit, rfl, hfp, hw, hnil, Or.inr ⟨res, hex, hrun2⟩⟩

end Reaching


/-! ## The claims -/

section Claims

open CommandIndex

theorem string_length_pos_iff (s : String) : s.length > 0 ↔ s ≠ "" := by
  rw [String.length, gt_iff_lt, List.length_pos, Ne, Ne, String.ext_iff]

/-- C8: for a non-empty argument list the output prefix is the argument of the prefix
option when that is non-empty, otherwise "stdin" when the first argument is "-",
otherwise the first argument; it is the same whatever the later arguments are. -/
theorem chosenPrefix_first_argument_only (options : String → CommandOption) (first : String)
    (rest : List String) :
    chosenPrefix { arguments := first :: rest, options := options } =
        (if (options "prefix").argument ≠ "" then (options "prefix").argument
         else if first = "-" then "stdin" else first) ∧
      ∀ others : List String,
        chosenPrefix { arguments := first :: others, options := options } =
          chosenPrefix { arguments := first :: rest, options := options } := by
  constructor
  · unfold chosenPrefix
    by_cases h : (options "prefix").argument ≠ ""
    · rw [if_pos ((string_length_pos_iff _).2 h), if_pos h]
    · rw [if_neg (fun hlen => h ((string_length_pos_iff _).1 hlen)), if_neg h]
      rfl
  · intro others
    rfl

/-- C4: for a reference count `n` below `2 ^ 52` (every count the `int`-indexed loop of
line 94 can walk through is below `2 ^ 31`), the configured tmax is the integer square
root of `n`: `t * t ≤ n < (t + 1) * (t + 1)`, and `t` is the largest such integer. -/
theorem configured_tmax_is_integer_sqrt (pfx : String) (n : Nat) (h : n < 2 ^ 52) :
    (layoutConfiguration pfx n).tmax = Nat.sqrt n ∧
      (layoutConfiguration pfx n).tmax * (layoutConfiguration pfx n).tmax ≤ n ∧
      n < ((layoutConfiguration pfx n).tmax + 1) * ((layoutConfiguration pfx n).tmax + 1) ∧
      ∀ t : Nat, t * t ≤ n → t ≤ (layoutConfiguration pfx n).tmax := by
  have ht : (layoutConfiguration pfx n).tmax = Nat.sqrt n := configured_tmax_eq_sqrt n h
  rw [ht]
  exact ⟨rfl, Nat.sqrt_le n, Nat.lt_succ_sqrt n, fun t h2 => Nat.le_sqrt.2 h2⟩

theorem configured_tmax_is_integer_sqrt_witness :
    (1000 : Nat) < 2 ^ 52 ∧
      ((layoutConfiguration "refs.msh" 1000).tmax = Nat.sqrt 1000 ∧
        (layoutConfiguration "refs.msh" 1000).tmax * (layoutConfiguration "refs.msh" 1000).tmax
          ≤ 1000 ∧
        1000 < ((layoutConfiguration "refs.msh" 1000).tmax + 1) *
          ((layoutConfiguration "refs.msh" 1000).tmax + 1) ∧
        ∀ t : Nat, t * t ≤ 1000 → t ≤ (layoutConfiguration "refs.msh" 1000).tmax) :=
  ⟨by norm_num, configured_tmax_is_integer_sqrt "refs.msh" 1000 (by norm_num)⟩

/-- C5: when the run reaches the layout step and `execute` returns, the layout file
`<prefix>.layout` holds exactly the header rendered from the configuration, the returned
maximum HIBF id and the header buffer, followed by the whole output buffer. -/
theorem layout_file_is_header_then_records (env : Collaborators) (cmd : Command)
    (ds : data_store) (c : configuration) (res : LayoutResult)
    (hreach : Event.execute ds c ∈ (run env cmd).trace)
    (hres : env.execute ds c = some res) :
    c.output_filename = chosenPrefix cmd ++ ".layout" ∧
      fileContent (run env cmd).trace c.output_filename =
        some (env.write_layout_header_to c res.max_hibf_id res.header_buffer ++
          res.output_buffer) := by
  obtain ⟨sketch, evs, fp, _, _, hc, _, _, _, hcase⟩ := run_of_execute_mem env cmd ds c hreach
  refine ⟨by rw [hc]; rfl, ?_⟩
  rcases hcase with ⟨hnone, _⟩ | ⟨res2, hres2, hrun⟩
  · rw [hnone] at hres
    cases hres
  · rw [hres] at hres2
    cases hres2
    rw [hrun]
    simp [fileContent, List.foldl_append, fileStep]

end Claims


section Claims2

open CommandIndex

theorem oneInput_reaches_layout :
    Event.execute oneReferenceData (layoutConfiguration "genome.fa" 1) ∈
      (run (sampleEnv oneReference) oneInput).trace := by
  simp [run, oneInput, noOptions, sampleEnv, oneReference, layoutStage, layoutBody, finish,
    sketchLoop,
    chosenPrefix, Sketch.getReferenceCount, oneReferenceData, layoutConfiguration]
  rfl

theorem layout_file_is_header_then_records_witness :
    Event.execute oneReferenceData (layoutConfiguration "genome.fa" 1) ∈
        (run (sampleEnv oneReference) oneInput).trace ∧
      (sampleEnv oneReference).execute oneReferenceData (layoutConfiguration "genome.fa" 1) =
        some { max_hibf_id := 0, header_buffer := "H", output_buffer := "R" } ∧
      ((layoutConfiguration "genome.fa" 1).output_filename = chosenPrefix oneInput ++ ".layout" ∧
        fileContent (run (sampleEnv oneReference) oneInput).trace
            (layoutConfiguration "genome.fa" 1).output_filename =
          some ((sampleEnv oneReference).write_layout_header_to
              (layoutConfiguration "genome.fa" 1) 0 "H" ++ "R")) :=
  ⟨oneInput_reaches_layout, rfl,
    layout_file_is_header_then_records (sampleEnv oneReference) oneInput oneReferenceData
      (layoutConfiguration "genome.fa" 1)
      { max_hibf_id := 0, header_buffer := "H", output_buffer := "R" }
      oneInput_reaches_layout rfl⟩

/-- C9: in a run that reaches the layout step, `compute_fp_correction` is called exactly
once, immediately before the only call of `execute`, and with the false-positive rate,
the number of hash functions and the tmax of the configuration given to `execute`:
0.05, 4 and the configured tmax of the loaded sketch. -/
theorem fp_correction_once_before_execute (env : Collaborators) (cmd : Command)
    (ds : data_store) (c : configuration)
    (hreach : Event.execute ds c ∈ (run env cmd).trace) :
    ∃ (before after : List Event) (sketch : Sketch),
      (run env cmd).trace =
        before ++
          [Event.compute_fp_correction c.false_positive_rate c.num_hash_functions c.tmax,
           Event.execute ds c] ++ after ∧
      (∀ e ∈ before ++ after, e.isFpCorrection = false ∧ e.isExecute = false) ∧
      env.initFromFiles [cmd.arguments.getD 0 ""] = some sketch ∧
      c.false_positive_rate = 0.05 ∧ c.num_hash_functions = 4 ∧
      c.tmax = configured_tmax sketch.getReferenceCount := by
  obtain ⟨sketch, evs, fp, _, hinit, hc, _, hw, _, hcase⟩ :=
    run_of_execute_mem env cmd ds c hreach
  have hpre : ∀ e ∈ [Event.initFromFiles [cmd.arguments.getD 0 ""]] ++
      [Event.create_directory (chosenPrefix cmd ++ "_sketches")] ++ evs,
      e.isFpCorrection = false ∧ e.isExecute = false := by
    intro e he
    simp only [List.mem_append, List.mem_singleton] at he
    rcases he with (rfl | rfl) | he
    · exact ⟨rfl, rfl⟩
    · exact ⟨rfl, rfl⟩
    · exact ⟨fileWrite_not_fpCorrection e (hw e he), fileWrite_not_execute e (hw e he)⟩
  have hvals : c.false_positive_rate = 0.05 ∧ c.num_hash_functions = 4 ∧
      c.tmax = configured_tmax sketch.getReferenceCount := by
    rw [hc]
    exact ⟨rfl, rfl, rfl⟩
  rcases hcase with ⟨_, hrun⟩ | ⟨res, _, hrun⟩
  · refine ⟨[Event.initFromFiles [cmd.arguments.getD 0 ""]] ++
      [Event.create_directory (chosenPrefix cmd ++ "_sketches")] ++ evs, [], sketch,
      ?_, ?_, hinit, hvals⟩
    · rw [hrun]
      simp
    · simpa using hpre
  · refine ⟨[Event.initFromFiles [cmd.arguments.getD 0 ""]] ++
      [Event.create_directory (chosenPrefix cmd ++ "_sketches")] ++ evs,
      [Event.ofstream c.output_filename,
       Event.put c.output_filename
         (env.write_layout_header_to c res.max_hibf_id res.header_buffer),
       Event.put c.output_filename res.output_buffer,
       Event.cerr ("Writing to " ++ (chosenPrefix cmd ++ ".indec") ++ "...\n")], sketch,
      ?_, ?_, hinit, hvals⟩
    · rw [hrun]
      simp only [List.append_assoc, List.singleton_append, List.cons_append, List.nil_append]
    · intro e he
      rw [List.mem_append] at he
      rcases he with he | he
      · exact hpre e he
      · simp only [List.mem_cons, List.mem_singleton, List.not_mem_nil, or_false] at he
        rcases he with rfl | rfl | rfl | rfl <;> exact ⟨rfl, rfl⟩

end Claims2


section Claims3

open CommandIndex

theorem fp_correction_once_before_execute_witness :
    Event.execute oneReferenceData (layoutConfiguration "genome.fa" 1) ∈
        (run (sampleEnv oneReference) oneInput).trace ∧
      ∃ (before after : List Event) (sketch : Sketch),
        (run (sampleEnv oneReference) oneInput).trace =
          before ++
            [Event.compute_fp_correction
                (layoutConfiguration "genome.fa" 1).false_positive_rate
                (layoutConfiguration "genome.fa" 1).num_hash_functions
                (layoutConfiguration "genome.fa" 1).tmax,
             Event.execute oneReferenceData (layoutConfiguration "genome.fa" 1)] ++ after ∧
        (∀ e ∈ before ++ after, e.isFpCorrection = false ∧ e.isExecute = false) ∧
        (sampleEnv oneReference).initFromFiles [oneInput.arguments.getD 0 ""] = some sketch ∧
        (layoutConfiguration "genome.fa" 1).false_positive_rate = 0.05 ∧
        (layoutConfiguration "genome.fa" 1).num_hash_functions = 4 ∧
        (layoutConfiguration "genome.fa" 1).tmax = configured_tmax sketch.getReferenceCount :=
  ⟨oneInput_reaches_layout,
    fp_correction_once_before_execute (sampleEnv oneReference) oneInput oneReferenceData
      (layoutConfiguration "genome.fa" 1) oneInput_reaches_layout⟩

theorem noReference_reaches_layout :
    Event.execute noReferenceData (layoutConfiguration "genome.fa" 0) ∈
      (run (sampleEnv []) oneInput).trace := by
  simp [run, oneInput, noOptions, sampleEnv, layoutStage, layoutBody, finish, sketchLoop,
    chosenPrefix, Sketch.getReferenceCount, noReferenceData, layoutConfiguration]

/-- C2, as stated, fails: for a sketch without references the configuration given to the
layout engine has tmax 0, below the bound `tmax ≥ 1`. -/
theorem configuration_boundary_fails_without_references :
    Event.execute noReferenceData (layoutConfiguration "genome.fa" 0) ∈
        (run (sampleEnv []) oneInput).trace ∧
      (sampleEnv []).initFromFiles [oneInput.arguments.getD 0 ""] = some { references := [] } ∧
      Sketch.getReferenceCount { references := [] } = 0 ∧
      ¬ 1 ≤ (layoutConfiguration "genome.fa" 0).tmax := by
  refine ⟨noReference_reaches_layout, rfl, rfl, ?_⟩
  show ¬ 1 ≤ configured_tmax 0
  rw [configured_tmax_zero]
  omega

/-- C2, amended: the configuration given to the layout engine has `tmax ≥ 1` exactly when
the loaded sketch has at least one reference, and for every reference count it has
`0 < false_positive_rate < 1`, `num_hash_functions ≥ 1`, `alpha ≥ 1`,
`0 ≤ max_rearrangement_ratio ≤ 1` and `threads ≥ 1`. -/
theorem configuration_boundary (env : Collaborators) (cmd : Command) (ds : data_store)
    (c : configuration) (sketch : Sketch)
    (hreach : Event.execute ds c ∈ (run env cmd).trace)
    (hinit : env.initFromFiles [cmd.arguments.getD 0 ""] = some sketch) :
    (1 ≤ c.tmax ↔ 1 ≤ sketch.getReferenceCount) ∧
      0 < c.false_positive_rate ∧ c.false_positive_rate < 1 ∧
      1 ≤ c.num_hash_functions ∧ 1 ≤ c.alpha ∧
      0 ≤ c.max_rearrangement_ratio ∧ c.max_rearrangement_ratio ≤ 1 ∧
      1 ≤ c.threads := by
  obtain ⟨sketch2, _, _, _, hinit2, hc, _⟩ := run_of_execute_mem env cmd ds c hreach
  rw [hinit] at hinit2
  cases hinit2
  subst hc
  refine ⟨configured_tmax_pos_iff _, ?_, ?_, ?_, ?_, ?_, ?_, ?_⟩ <;>
    simp only [layoutConfiguration] <;> norm_num

theorem configuration_boundary_witness :
    Event.execute oneReferenceData (layoutConfiguration "genome.fa" 1) ∈
        (run (sampleEnv oneReference) oneInput).trace ∧
      (sampleEnv oneReference).initFromFiles [oneInput.arguments.getD 0 ""] =
        some { references := oneReference } ∧
      ((1 ≤ (layoutConfiguration "genome.fa" 1).tmax ↔
          1 ≤ Sketch.getReferenceCount { references := oneReference }) ∧
        0 < (layoutConfiguration "genome.fa" 1).false_positive_rate ∧
        (layoutConfiguration "genome.fa" 1).false_positive_rate < 1 ∧
        1 ≤ (layoutConfiguration "genome.fa" 1).num_hash_functions ∧
        1 ≤ (layoutConfiguration "genome.fa" 1).alpha ∧
        0 ≤ (layoutConfiguration "genome.fa" 1).max_rearrangement_ratio ∧
        (layoutConfiguration "genome.fa" 1).max_rearrangement_ratio ≤ 1 ∧
        1 ≤ (layoutConfiguration "genome.fa" 1).threads) :=
  ⟨oneInput_reaches_layout, rfl,
    configuration_boundary (sampleEnv oneReference) oneInput oneReferenceData
      (layoutConfiguration "genome.fa" 1) { references := oneReference }
      oneInput_reaches_layout rfl⟩

end Claims3


section Claims4

open CommandIndex

/-- C3, as stated, fails: for a sketch without references the configured tmax is 0, yet the
run calls `compute_fp_correction`, then `execute`, and returns 0. -/
theorem no_configuration_check_without_references :
    (layoutConfiguration "genome.fa" (Sketch.getReferenceCount { references := [] })).tmax < 1 ∧
      (sampleEnv []).initFromFiles [oneInput.arguments.getD 0 ""] = some { references := [] } ∧
      (run (sampleEnv []) oneInput).returned = some 0 ∧
      (run (sampleEnv []) oneInput).trace.any Event.isFpCorrection = true ∧
      (run (sampleEnv []) oneInput).trace.any Event.isExecute = true := by
  refine ⟨?_, rfl, by decide, by decide, by decide⟩
  show configured_tmax 0 < 1
  rw [configured_tmax_zero]
  omega

theorem string_append_left_cancel (s a b : String) (h : s ++ a = s ++ b) : a = b := by
  rw [String.ext_iff, String.data_append, String.data_append] at h
  exact String.ext (List.append_cancel_left h)

/-- The HyperLogLog files and the layout file never share a name. -/
theorem hllPath_ne_layout (pfx : String) (k : Nat) :
    hllPath (pfx ++ "_sketches") k ≠ pfx ++ ".layout" := by
  intro h
  unfold hllPath at h
  rw [String.append_assoc, String.append_assoc, String.append_assoc] at h
  have h2 := string_append_left_cancel _ _ _ h
  have h3 := congrArg (fun t : String => t.data.head?) h2
  simp at h3

/-- A run on a sketch without references, once the sketch directory is created: the
next event is the call of `compute_fp_correction` with 0.05, 4 and 0, and when that
returns the call of `execute` follows at once. -/
theorem run_without_references_trace (env : Collaborators) (cmd : Command) (sketch : Sketch)
    (created : Bool)
    (hargs : ¬ (cmd.arguments.length = 0 ∨ (cmd.options "help").active = true))
    (hinit : env.initFromFiles [cmd.arguments.getD 0 ""] = some sketch)
    (hrefs : sketch.references = [])
    (hdir : env.create_directory (chosenPrefix cmd ++ "_sketches") = some created) :
    ∃ rest : List Event,
      (run env cmd).trace =
        [Event.initFromFiles [cmd.arguments.getD 0 ""],
         Event.create_directory (chosenPrefix cmd ++ "_sketches"),
         Event.compute_fp_correction 0.05 4 0] ++ rest ∧
      (∀ p ∈ filesWritten rest, p = chosenPrefix cmd ++ ".layout") ∧
      ∀ fp, env.compute_fp_correction 0.05 4 0 = some fp →
        ∃ (ds : data_store) (rest2 : List Event),
          rest = Event.execute ds (layoutConfiguration (chosenPrefix cmd) 0) :: rest2 := by
  have hzero : sketch.getReferenceCount = 0 := List.length_eq_zero.2 hrefs
  have hrun : run env cmd = layoutBody env (chosenPrefix cmd) sketch
      ([Event.initFromFiles [cmd.arguments.getD 0 ""]] ++
        [Event.create_directory (chosenPrefix cmd ++ "_sketches")]) := by
    rw [← (layoutStage_spec env (chosenPrefix cmd) sketch
      [Event.initFromFiles [cmd.arguments.getD 0 ""]]).2 created hdir]
    simp only [run, if_neg hargs, hinit]
  obtain ⟨evs, ds0, _, hnil, hspec⟩ := layoutBody_spec env (chosenPrefix cmd) sketch
    ([Event.initFromFiles [cmd.arguments.getD 0 ""]] ++
      [Event.create_directory (chosenPrefix cmd ++ "_sketches")])
  obtain ⟨hA, hB⟩ := hspec _ rfl _ rfl
  have hevs : evs = [] := hnil hrefs
  subst hevs
  rw [hzero] at hA hB
  have htmax : (layoutConfiguration (chosenPrefix cmd) 0).tmax = 0 := configured_tmax_zero
  have hfpr : (layoutConfiguration (chosenPrefix cmd) 0).false_positive_rate = 0.05 := rfl
  have hnum : (layoutConfiguration (chosenPrefix cmd) 0).num_hash_functions = 4 := rfl
  rw [htmax, hfpr, hnum] at hA hB
  cases hfp : env.compute_fp_correction 0.05 4 0 with
  | none =>
    refine ⟨[], ?_, by simp [filesWritten], ?_⟩
    · rw [hrun, hA hfp]
      simp
    · intro fp h
      cases h
  | some fp =>
    obtain ⟨hC, hD⟩ := hB fp hfp _ rfl
    cases hex : env.execute { ds0 with fp_correction := fp, false_positive_rate := 0.05 }
        (layoutConfiguration (chosenPrefix cmd) 0) with
    | none =>
      refine ⟨[Event.execute { ds0 with fp_correction := fp, false_positive_rate := 0.05 }
        (layoutConfiguration (chosenPrefix cmd) 0)], ?_, by simp [filesWritten], ?_⟩
      · rw [hrun, hC hex]
        simp
      · intro fp2 _
        exact ⟨_, [], rfl⟩
    | some res =>
      refine ⟨[Event.execute { ds0 with fp_correction := fp, false_positive_rate := 0.05 }
          (layoutConfiguration (chosenPrefix cmd) 0),
        Event.ofstream (layoutConfiguration (chosenPrefix cmd) 0).output_filename,
        Event.put (layoutConfiguration (chosenPrefix cmd) 0).output_filename
          (env.write_layout_header_to (layoutConfiguration (chosenPrefix cmd) 0)
            res.max_hibf_id res.header_buffer),
        Event.put (layoutConfiguration (chosenPrefix cmd) 0).output_filename
          res.output_buffer,
        Event.cerr ("Writing to " ++ (chosenPrefix cmd ++ ".indec") ++ "...\n")],
        ?_, ?_, ?_⟩
      · rw [hrun, hD res hex]
        simp
      · simp [filesWritten, layoutConfiguration]
      · intro fp2 _
        exact ⟨_, _, rfl⟩

/-- C3, amended: the configured tmax is below 1 exactly for a sketch without references.
In that case the run makes no configuration check before the layout work: no HyperLogLog
file is written, but as soon as the sketch directory is created `compute_fp_correction`
is called, with 0.05, 4 and tmax 0, and as soon as that call returns `execute` is called
with a configuration whose tmax is 0. -/
theorem run_without_references (env : Collaborators) (cmd : Command) (sketch : Sketch)
    (hargs : ¬ (cmd.arguments.length = 0 ∨ (cmd.options "help").active = true))
    (hinit : env.initFromFiles [cmd.arguments.getD 0 ""] = some sketch) :
    ((layoutConfiguration (chosenPrefix cmd) sketch.getReferenceCount).tmax < 1 ↔
        sketch.getReferenceCount = 0) ∧
      (sketch.getReferenceCount = 0 →
        (∀ k, hllPath (chosenPrefix cmd ++ "_sketches") k ∉
          filesWritten (run env cmd).trace) ∧
        ∀ created, env.create_directory (chosenPrefix cmd ++ "_sketches") = some created →
          ∃ rest : List Event,
            (run env cmd).trace =
              [Event.initFromFiles [cmd.arguments.getD 0 ""],
               Event.create_directory (chosenPrefix cmd ++ "_sketches"),
               Event.compute_fp_correction 0.05 4 0] ++ rest ∧
            ∀ fp, env.compute_fp_correction 0.05 4 0 = some fp →
              ∃ (ds : data_store) (rest2 : List Event),
                rest = Event.execute ds (layoutConfiguration (chosenPrefix cmd) 0) :: rest2 ∧
                (layoutConfiguration (chosenPrefix cmd) 0).tmax = 0) := by
  constructor
  · show configured_tmax sketch.getReferenceCount < 1 ↔ sketch.getReferenceCount = 0
    have := configured_tmax_pos_iff sketch.getReferenceCount
    omega
  · intro hzero
    have hrefs : sketch.references = [] := List.length_eq_zero.1 hzero
    constructor
    · intro k hk
      cases hdir : env.create_directory (chosenPrefix cmd ++ "_sketches") with
      | none =>
        have hrun : run env cmd =
            { trace := [Event.initFromFiles [cmd.arguments.getD 0 ""]] ++
                [Event.create_directory (chosenPrefix cmd ++ "_sketches")]
              returned := none } := by
          rw [← (layoutStage_spec env (chosenPrefix cmd) sketch
            [Event.initFromFiles [cmd.arguments.getD 0 ""]]).1 hdir]
          simp only [run, if_neg hargs, hinit]
        rw [hrun] at hk
        simp [filesWritten] at hk
      | some created =>
        obtain ⟨rest, htrace, hfiles, _⟩ :=
          run_without_references_trace env cmd sketch created hargs hinit hrefs hdir
        rw [htrace] at hk
        have hk2 : hllPath (chosenPrefix cmd ++ "_sketches") k ∈ filesWritten rest := by
          simpa [filesWritten] using hk
        exact hllPath_ne_layout _ k (hfiles _ hk2)
    · intro created hdir
      obtain ⟨rest, htrace, _, hnext⟩ :=
        run_without_references_trace env cmd sketch created hargs hinit hrefs hdir
      refine ⟨rest, htrace, ?_⟩
      intro fp hfp
      obtain ⟨ds, rest2, hrest⟩ := hnext fp hfp
      exact ⟨ds, rest2, hrest, configured_tmax_zero⟩

theorem run_without_references_witness :
    ¬ (oneInput.arguments.length = 0 ∨ (oneInput.options "help").active = true) ∧
      (sampleEnv []).initFromFiles [oneInput.arguments.getD 0 ""] = some { references := [] } ∧
      (((layoutConfiguration (chosenPrefix oneInput)
            (Sketch.getReferenceCount { references := [] })).tmax < 1 ↔
          Sketch.getReferenceCount { references := [] } = 0) ∧
        (Sketch.getReferenceCount { references := [] } = 0 →
          (∀ k, hllPath (chosenPrefix oneInput ++ "_sketches") k ∉
            filesWritten (run (sampleEnv []) oneInput).trace) ∧
          ∀ created,
            (sampleEnv []).create_directory (chosenPrefix oneInput ++ "_sketches") =
              some created →
            ∃ rest : List Event,
              (run (sampleEnv []) oneInput).trace =
                [Event.initFromFiles [oneInput.arguments.getD 0 ""],
                 Event.create_directory (chosenPrefix oneInput ++ "_sketches"),
                 Event.compute_fp_correction 0.05 4 0] ++ rest ∧
              ∀ fp, (sampleEnv []).compute_fp_correction 0.05 4 0 = some fp →
                ∃ (ds : data_store) (rest2 : List Event),
                  rest =
                    Event.execute ds (layoutConfiguration (chosenPrefix oneInput) 0) :: rest2 ∧
                  (layoutConfiguration (chosenPrefix oneInput) 0).tmax = 0)) :=
  ⟨by decide, rfl,
    run_without_references (sampleEnv []) oneInput { references := [] } (by decide) rfl⟩

/-- C1 at a failing input: with one input file and one reference the run returns 0 and has
written the HyperLogLog file and the layout file, but no index file: the name
`genome.fa.indec` is only printed in the message on standard error. -/
theorem index_file_is_not_written :
    (run (sampleEnv oneReference) oneInput).returned = some 0 ∧
      filesWritten (run (sampleEnv oneReference) oneInput).trace =
        ["genome.fa_sketches/0.hll", "genome.fa.layout"] ∧
      "genome.fa.indec" ∉ filesWritten (run (sampleEnv oneReference) oneInput).trace ∧
      messages (run (sampleEnv oneReference) oneInput).trace =
        ["Writing to genome.fa.indec...\n"] := by
  refine ⟨by decide, by decide, by decide, by decide⟩

/-- C6 at a failing input: no output name ends in `.msh`.  For the input `genome.fa` the
files written are `genome.fa_sketches/0.hll` and `genome.fa.layout` and the index name
announced is `genome.fa.indec`; for standard input they are `stdin_sketches/0.hll`,
`stdin.layout` and `stdin.indec`. -/
theorem output_names_do_not_end_in_msh :
    chosenPrefix oneInput = "genome.fa" ∧
      filesWritten (run (sampleEnv oneReference) oneInput).trace =
        ["genome.fa_sketches/0.hll", "genome.fa.layout"] ∧
      messages (run (sampleEnv oneReference) oneInput).trace =
        ["Writing to genome.fa.indec...\n"] ∧
      chosenPrefix oneInput ++ ".msh" ∉
        filesWritten (run (sampleEnv oneReference) oneInput).trace ∧
      chosenPrefix stdinInput = "stdin" ∧
      filesWritten (run (sampleEnv oneReference) stdinInput).trace =
        ["stdin_sketches/0.hll", "stdin.layout"] ∧
      messages (run (sampleEnv oneReference) stdinInput).trace =
        ["Writing to stdin.indec...\n"] ∧
      chosenPrefix stdinInput ++ ".msh" ∉
        filesWritten (run (sampleEnv oneReference) stdinInput).trace := by
  refine ⟨by decide, by decide, by decide, by decide, by decide, by decide, by decide,
    by decide⟩

/-- C7 at a failing input: with the arguments `a.fa b.fa` only `a.fa` is handed to
`Sketch::initFromFiles`, so the layout gets the one reference of `a.fa` although the two
files hold two; with the list flag and the arguments `a.txt b.txt` only the name `a.txt`
itself is handed over. -/
theorem only_first_argument_is_ingested :
    filesIngested (run perFileEnv twoInputs).trace = [["a.fa"]] ∧
      filesIngested (run perFileEnv twoInputs).trace ≠ [twoInputs.arguments] ∧
      (layoutInputs (run perFileEnv twoInputs).trace).map data_store.filenames = [["0"]] ∧
      (perFileEnv.initFromFiles twoInputs.arguments).map Sketch.getReferenceCount = some 2 ∧
      (twoLists.options "list").active = true ∧
      filesIngested (run perFileEnv twoLists).trace = [["a.txt"]] ∧
      filesIngested (run perFileEnv twoLists).trace ≠ [twoLists.arguments] := by
  refine ⟨by decide, by decide, by decide, by decide, by decide, by decide, by decide⟩

end Claims4


section Precision

theorem log2_two_pow_26 : Nat.log2 67108864 = 26 := by
  have hne : (67108864 : Nat) ≠ 0 := by norm_num
  have h1 : 26 ≤ Nat.log2 67108864 := (Nat.le_log2 hne).2 (by norm_num)
  have h2 : Nat.log2 67108864 < 27 := (Nat.log2_lt hne).2 (by norm_num)
  omega

/-- Beyond the 53-bit precision of `double` the rounded root can reach the next integer:
at `n = 2 ^ 52 + 2 ^ 27 = (2 ^ 26 + 1) ^ 2 - 1` the stored value is `2 ^ 26 + 1` while the
integer root is `2 ^ 26`.  No sketch has that many references. -/
theorem configured_tmax_beyond_double_precision :
    configured_tmax 4503599761588224 = 67108865 ∧ Nat.sqrt 4503599761588224 = 67108864 := by
  have hs : Nat.sqrt 4503599761588224 = 67108864 := by
    symm
    rw [Nat.eq_sqrt]
    norm_num
  have hS : Nat.sqrt (4503599761588224 * 4 ^ 26) = 4503599694479359 := by
    symm
    rw [Nat.eq_sqrt]
    norm_num
  have hd : toDouble 4503599761588224 = 4503599761588224 := toDouble_exact _ (by norm_num)
  have hr : nearestRoot (4503599761588224 * 4 ^ 26) = 4503599694479360 := by
    unfold nearestRoot
    simp only [hS]
    rw [if_neg (by norm_num)]
  have hq : std_sqrt 4503599761588224 = ⟨4503599694479360, 26⟩ := by
    unfold std_sqrt
    rw [if_neg (by norm_num)]
    simp only [hs, log2_two_pow_26, hr]
  refine ⟨?_, hs⟩
  unfold configured_tmax
  rw [hd, hq]
  unfold toSizeT
  norm_num

end Precision

end mash
